import Mathlib

/-!
Shallow embedding of `py2app/_modulegraph.py` (class `ModuleGraph`, a wrapper
around the external `modulegraph2.ModuleGraph` engine) together with proofs
about the claims of the specification.

Nodes of the dependency graph are modelled as records carrying the
py2app-relevant extension attributes (`py2app.zipsafe`, `py2app.bootstrap`,
`py2app.resources`, `py2app.full_package`, ...).  The external graph engine
(`modulegraph2`, an out-of-scope collaborator of the wrapper) is modelled as a
record of operations constrained by the contract the specification states for
it; a concrete engine satisfying the contract is provided for witnesses.
-/

/-- Modelled from the spec: `Resource` from `py2app._config` (not under the
sources provided): an immutable value object describing one extra file to copy
(source path + destination placement); equality is by value. -/
structure Resource where
  source : String
  destination : String
deriving DecidableEq, Repr

/-- The node kinds of `modulegraph2` used by `_modulegraph.py`, as a flat
variant set (spec §3), plus `distribution` for `PyPIDistribution` members of
the graph. -/
inductive NodeKind where
  | module
  | package
  | namespacePackage
  | script
  | extensionModule
  | builtinModule
  | frozenModule
  | aliasNode
  | missingModule
  | excludedModule
  | distribution
deriving DecidableEq, Repr

/-- Python `isinstance(node, Module)` in `modulegraph2`: `ExtensionModule`,
`BuiltinModule` and `FrozenModule` are subclasses of `Module` (the docstring of
`is_zipsafe` notes that "extension modules are assumed to be just like other
modules"). -/
def NodeKind.isModuleInstance : NodeKind → Bool
  | .module => true
  | .extensionModule => true
  | .builtinModule => true
  | .frozenModule => true
  | _ => false

/-- Python `isinstance(node, (Module, Package, NamespacePackage))`. -/
def NodeKind.isMPN (k : NodeKind) : Bool :=
  k.isModuleInstance || k == .package || k == .namespacePackage

/-- The kinds skipped by `collect_nodes`: `BuiltinModule`, `FrozenModule`,
`AliasNode`, `MissingModule`, `ExcludedModule`, `PyPIDistribution`. -/
def NodeKind.isExcludedKind : NodeKind → Bool
  | .builtinModule => true
  | .frozenModule => true
  | .aliasNode => true
  | .missingModule => true
  | .excludedModule => true
  | .distribution => true
  | _ => false

/-- The py2app extension attributes of a node
(`node.extension_attributes`): `py2app.zipsafe` (absent or a bool),
`py2app.bootstrap` (list of scriptlet sources, absent modelled as `[]`, which
is indistinguishable from an empty list in the source), `py2app.resources`,
`py2app.full_package`, `py2app.ignore_resources`, `py2app.expected_missing`. -/
structure Attrs where
  zipsafe : Option Bool := none
  bootstrap : List String := []
  resources : List Resource := []
  fullPackage : Bool := false
  ignoreResources : Bool := false
  expectedMissing : Bool := false
deriving DecidableEq, Repr

/-- The `init_module` of a `Package` node: its kind test
(`isinstance(node.init_module, Module)`), its `uses_dunder_file` flag and the
presence/value of `py2app.zipsafe` in its own extension attributes. -/
structure InitModule where
  isModuleInstance : Bool := false
  usesDunderFile : Bool := false
  zipsafe : Option Bool := none
deriving DecidableEq, Repr

/-- A graph node (`modulegraph2.BaseNode`).  `initModule` is only meaningful
for `package` nodes (Python only reads `.init_module` on `Package`);
`usesDunderFile` only for `Module` instances. -/
structure Node where
  identifier : String
  kind : NodeKind
  usesDunderFile : Bool := false
  initModule : InitModule := {}
  attrs : Attrs := {}
deriving DecidableEq, Repr

/-- The graph proper (nodes in `iter_graph` order, edges as importer/imported
identifier pairs); owned by the engine, metadata written by the wrapper. -/
structure Graph where
  nodes : List Node
  edges : List (String × String)
deriving DecidableEq, Repr

/-- Source `self.find_node(name)`: look a node up by identifier. -/
def findNode (g : Graph) (name : String) : Option Node :=
  g.nodes.find? (fun n => n.identifier == name)

/-- Mutating a node in place (Python mutates the shared node object; node
identity corresponds to the identifier, which is unique in the graph). -/
def updateNode (g : Graph) (name : String) (f : Node → Node) : Graph :=
  { g with nodes := g.nodes.map (fun n => if n.identifier == name then f n else n) }

/-- Source `self.edge_data(a, b)` succeeding, i.e. the edge exists. -/
def hasEdge (g : Graph) (a b : String) : Bool :=
  g.edges.contains (a, b)

/-- Source `node.extension_attributes[ATTR_ZIPSAFE] = b`. -/
def setZipsafeAttr (b : Bool) (n : Node) : Node :=
  { n with attrs := { n.attrs with zipsafe := some b } }

/-- Source `node.extension_attributes["py2app.full_package"] = True`. -/
def setFullPackage (n : Node) : Node :=
  { n with attrs := { n.attrs with fullPackage := true } }

/-- Python `"." in s` (single-character containment). -/
def strHasDot (s : String) : Bool :=
  s.data.contains '.'

/-- Python `s.startswith(p)`. -/
def strStartsWith (s p : String) : Bool :=
  p.data.isPrefixOf s.data

/-- Source `node.identifier.partition(".")[0]`: the prefix before the first dot. -/
def rootName (s : String) : String :=
  ⟨s.data.takeWhile (fun c => c != '.')⟩

/-- The two checks of the `isinstance(node, Package)` branch of `is_zipsafe`:
the package is unsafe when its init module carries an explicitly false
`py2app.zipsafe` attribute, or (when that attribute is absent) when the init
module is a `Module` that uses `__file__`. -/
def pkgInitUnsafe (n : Node) : Bool :=
  match n.initModule.zipsafe with
  | some b => !b
  | none => n.initModule.isModuleInstance && n.initModule.usesDunderFile

/-- The root-package scan of `is_zipsafe` (source lines 314-335): return the
cached value of `base` if present, otherwise scan every graph node whose
identifier extends `base.identifier ++ "."` for an explicitly false cached
`py2app.zipsafe` attribute, caching the verdict on `base`. -/
def zipsafeScan (g : Graph) (base : Node) : Bool × Graph :=
  match base.attrs.zipsafe with
  | some v => (v, g)
  | none =>
    let pfx := base.identifier ++ "."
    if g.nodes.any (fun sub =>
        strStartsWith sub.identifier pfx && sub.attrs.zipsafe == some false) then
      (false, updateNode g base.identifier (setZipsafeAttr false))
    else
      (true, updateNode g base.identifier (setZipsafeAttr true))

/-- Source `ModuleGraph.is_zipsafe`.  Returns `none` when the
`assert base is not None` programmer-error assertion fails (dotted identifier
whose root is not in the graph); otherwise `some (verdict, updated graph)`. -/
def is_zipsafe (g : Graph) (node : Node) : Option (Bool × Graph) :=
  if !node.kind.isMPN then some (true, g)
  else
    match node.attrs.zipsafe with
    | some v => some (v, g)
    | none =>
      if node.kind.isModuleInstance && node.usesDunderFile then
        some (false, g)
      else if node.kind == .package && pkgInitUnsafe node then
        some (false, updateNode g node.identifier (setZipsafeAttr false))
      else if strHasDot node.identifier then
        match findNode g (rootName node.identifier) with
        | none => none
        | some base => some (zipsafeScan g base)
      else if node.kind == .package || node.kind == .namespacePackage then
        some (zipsafeScan g node)
      else
        some (true, g)

/-- The loop body of `collect_nodes`, iterating over the (position-stable)
node slots of the graph; `is_zipsafe` may update cached attributes as the loop
runs, so each step re-reads the node at its index. -/
def collectGo (g : Graph) (idxs : List Nat) (zips unzips : List Node) :
    Option (List Node × List Node × Graph) :=
  match idxs with
  | [] => some (zips, unzips, g)
  | i :: rest =>
    match g.nodes[i]? with
    | none => collectGo g rest zips unzips
    | some node =>
      if node.kind.isExcludedKind then
        collectGo g rest zips unzips
      else if node.kind == .extensionModule && !strHasDot node.identifier then
        collectGo g rest zips (unzips ++ [node])
      else
        match is_zipsafe g node with
        | none => none
        | some (true, g') => collectGo g' rest (zips ++ [node]) unzips
        | some (false, g') => collectGo g' rest zips (unzips ++ [node])

/-- Source `ModuleGraph.collect_nodes`: partition the graph into archive
(`zip_nodes`) and loose (`unzip_nodes`) lists; `none` when an `is_zipsafe`
assertion fires.  Also returns the final graph (with zip-safety caches). -/
def collect_nodes (g : Graph) : Option (List Node × List Node × Graph) :=
  collectGo g (List.range g.nodes.length) [] []

/-- Python `list.extend(r for r in new if r not in cur)`: the membership test
runs against the growing list, so duplicates inside `new` are also dropped. -/
def extendDedup (cur new : List Resource) : List Resource :=
  new.foldl (fun acc r => if r ∈ acc then acc else acc ++ [r]) cur

/-- Source `ModuleGraph.add_resources`. -/
def add_resources (g : Graph) (name : String) (rs : List Resource) : Graph :=
  updateNode g name
    (fun n => { n with attrs := { n.attrs with resources := extendDedup n.attrs.resources rs } })

/-- The resource list of the node called `name`
(`node.extension_attributes.get(ATTR_RESOURCES, [])`). -/
def resourcesAttr (g : Graph) (name : String) : List Resource :=
  ((findNode g name).map (fun n => n.attrs.resources)).getD []

/-- Python `"\n".join`. -/
def joinLines : List String → String
  | [] => ""
  | [x] => x
  | x :: xs => x ++ "\n" ++ joinLines xs

/-- Source `ModuleGraph.bootstrap`: the accumulated scriptlets joined by a newline,
or `none` when the list is absent/empty (an empty list is falsy in Python). -/
def bootstrap (n : Node) : Option String :=
  match n.attrs.bootstrap with
  | [] => none
  | l => some (joinLines l)

/-- The bootstrap-scriptlet list of the node called `name`. -/
def bootstrapAttr (g : Graph) (name : String) : List String :=
  ((findNode g name).map (fun n => n.attrs.bootstrap)).getD []


/-- The wrapper's full state: the graph plus the
`self.__tracked_changes` list of `_ChangeTracker` flags (each tracker is its
single `updated` boolean; list position is creation order, innermost last). -/
structure MG where
  graph : Graph
  trackers : List Bool
deriving DecidableEq, Repr

/-- Source `ModuleGraph.__set_updated`: set the `updated` flag of every active
change tracker. -/
def setUpdated (m : MG) : MG :=
  { m with trackers := m.trackers.map (fun _ => true) }

/-- Entering `tracked_changes`: a fresh `_ChangeTracker` (flag `False`) is
appended to the list of active trackers. -/
def pushTracker (m : MG) : MG :=
  { m with trackers := m.trackers ++ [false] }

/-- Leaving `tracked_changes` (the `finally` block): the scope's own tracker,
the most recently appended one, is removed. -/
def popTracker (m : MG) : MG :=
  { m with trackers := m.trackers.dropLast }

/-- The flag of the innermost active tracker (the scope's own tracker while
the scope is the innermost one). -/
def lastFlag (m : MG) : Bool :=
  (m.trackers.getLast?).getD false

/-- Modelled from the spec: operations this wrapper consumes from the
external `modulegraph2` engine (spec §6): `super().add_module`,
`super().add_script`, `super().import_module` (creates node and edge),
`super().import_package`, `super().add_distribution`, and
`add_dependencies_for_source` (scans a scriptlet source for dependencies).
All operate on the graph only; the wrapper owns the trackers. -/
structure Engine where
  superAddModule : Graph → String → Node × Graph
  superAddScript : Graph → String → Node × Graph
  superImportModule : Graph → String → String → Node × Graph
  superImportPackage : Graph → String → String → Node × Graph
  superAddDistribution : Graph → String → Node × Graph
  addDependenciesForSource : Graph → String → Graph

/-- Source `ModuleGraph.add_module`: return an existing node unchanged (no change
signalled), otherwise signal change and delegate. -/
def add_module (E : Engine) (m : MG) (name : String) : Node × MG :=
  match findNode m.graph name with
  | some node => (node, m)
  | none =>
    let m1 := setUpdated m
    let r := E.superAddModule m1.graph name
    (r.1, { m1 with graph := r.2 })

/-- Source `ModuleGraph.add_script`: return an existing node unchanged when it is a
`Script` (`none` models the failing `assert isinstance(node, Script)`),
otherwise signal change and delegate. -/
def add_script (E : Engine) (m : MG) (path : String) : Option Node × MG :=
  match findNode m.graph path with
  | some node =>
    if node.kind == .script then (some node, m) else (none, m)
  | none =>
    let m1 := setUpdated m
    let r := E.superAddScript m1.graph path
    (some r.1, { m1 with graph := r.2 })

/-- The shared tail of `ModuleGraph.import_module` (signal change and
delegate to `super().import_module`). -/
def importModuleGrow (E : Engine) (m : MG) (importer name : String) : Node × MG :=
  let m1 := setUpdated m
  let r := E.superImportModule m1.graph importer name
  (r.1, { m1 with graph := r.2 })

/-- Source `ModuleGraph.import_module`: when the node exists and the probe
`edge_data(importing_module, node)` succeeds, return the node with no change
signalled; otherwise (missing node, or missing edge — the `KeyError` is
caught and control falls through) signal change and delegate. -/
def import_module (E : Engine) (m : MG) (importer name : String) : Node × MG :=
  match findNode m.graph name with
  | some node =>
    if hasEdge m.graph importer node.identifier then (node, m)
    else importModuleGrow E m importer name
  | none => importModuleGrow E m importer name

/-- The shared tail of `ModuleGraph.import_package`: signal change, delegate,
then set `py2app.full_package` on the returned node. -/
def importPackageGrow (E : Engine) (m : MG) (importer name : String) : Node × MG :=
  let m1 := setUpdated m
  let r := E.superImportPackage m1.graph importer name
  (setFullPackage r.1, { m1 with graph := updateNode r.2 r.1.identifier setFullPackage })

/-- Source `ModuleGraph.import_package`: an existing node marked
`py2app.full_package` is returned with no change signalled; otherwise signal
change, delegate, and mark the result fully imported. -/
def import_package (E : Engine) (m : MG) (importer name : String) : Node × MG :=
  match findNode m.graph name with
  | some node =>
    if node.attrs.fullPackage then (node, m)
    else importPackageGrow E m importer name
  | none => importPackageGrow E m importer name

/-- Source `ModuleGraph.add_distribution`: always signals change (no dedup check)
and delegates. -/
def add_distribution (E : Engine) (m : MG) (dist : String) : Node × MG :=
  let m1 := setUpdated m
  let r := E.superAddDistribution m1.graph dist
  (r.1, { m1 with graph := r.2 })

/-- Source `ModuleGraph.add_bootstrap_scriptlet`: append the source to the node's
`py2app.bootstrap` list unless already present, then hand the source to the
engine so its own dependencies are scanned. -/
def add_bootstrap_scriptlet (E : Engine) (g : Graph) (name src : String) : Graph :=
  if (bootstrapAttr g name).contains src then g
  else
    E.addDependenciesForSource
      (updateNode g name
        (fun n => { n with attrs := { n.attrs with bootstrap := n.attrs.bootstrap ++ [src] } }))
      src

/-- One graph-growing call of the idempotent mutation layer (spec §4.1). -/
inductive GrowOp where
  | addModule (name : String)
  | addScript (path : String)
  | importModule (importer name : String)
  | importPackage (importer name : String)
  | addDistribution (dist : String)
deriving DecidableEq, Repr

/-- The four add/import operations of claim C3 (everything except
`add_distribution`, which deliberately always signals change). -/
def GrowOp.isAddImport : GrowOp → Bool
  | .addDistribution _ => false
  | _ => true

/-- Run one mutation call: the returned node (or `none` when a programmer
error assertion fires, in which case the state is the state at the raise
point) together with the state after the call. -/
def runOp (E : Engine) (m : MG) : GrowOp → Option Node × MG
  | .addModule name =>
    let r := add_module E m name
    (some r.1, r.2)
  | .addScript path => add_script E m path
  | .importModule importer name =>
    let r := import_module E m importer name
    (some r.1, r.2)
  | .importPackage importer name =>
    let r := import_package E m importer name
    (some r.1, r.2)
  | .addDistribution dist =>
    let r := add_distribution E m dist
    (some r.1, r.2)

/-- Run a sequence of mutation calls, stopping at the first failing
assertion; the final state is returned in either case, together with a flag
that is `false` exactly when an assertion aborted the sequence (abnormal
exit of the observed region). -/
def runOpsState (E : Engine) (m : MG) : List GrowOp → MG × Bool
  | [] => (m, true)
  | op :: rest =>
    match runOp E m op with
    | (none, m1) => (m1, false)
    | (some _, m1) => runOpsState E m1 rest

/-- A `with self.tracked_changes() as tracker:` scope around a sequence of
mutation calls: register a fresh tracker, run the body (possibly aborting),
read the tracker's flag, and deregister the tracker in the `finally` block.
Returns the state after the scope, the observed flag, and the success flag. -/
def trackedRun (E : Engine) (m : MG) (ops : List GrowOp) : MG × Bool × Bool :=
  let r := runOpsState E (pushTracker m) ops
  (popTracker r.1, lastFlag r.1, r.2)

/-- A fresh `Module` node, as created by the engine for a newly imported
module. -/
def freshModule (name : String) : Node :=
  { identifier := name, kind := .module }

/-- A fresh `Script` node. -/
def freshScript (path : String) : Node :=
  { identifier := path, kind := .script }

/-- A fresh `Package` node with a harmless init module. -/
def freshPackage (name : String) : Node :=
  { identifier := name, kind := .package,
    initModule := { isModuleInstance := true } }

/-- Append a node to the graph. -/
def appendNode (g : Graph) (n : Node) : Graph :=
  { g with nodes := g.nodes ++ [n] }

/-- Append an edge to the graph unless already present. -/
def addEdge (g : Graph) (a b : String) : Graph :=
  if hasEdge g a b then g else { g with edges := g.edges ++ [(a, b)] }

/-- Modelled from the spec: a concrete engine satisfying the §6 contract
(creates a node under the requested identifier when absent; importing a
module or package also records the importer edge; scanning a scriptlet
source adds nothing relevant to existing nodes).  Used to instantiate the
engine-generic theorems at concrete inputs. -/
def specEngine : Engine where
  superAddModule g name :=
    match findNode g name with
    | some n => (n, g)
    | none => (freshModule name, appendNode g (freshModule name))
  superAddScript g path := (freshScript path, appendNode g (freshScript path))
  superImportModule g importer name :=
    match findNode g name with
    | some n => (n, addEdge g importer name)
    | none => (freshModule name, addEdge (appendNode g (freshModule name)) importer name)
  superImportPackage g importer name :=
    match findNode g name with
    | some n => (n, addEdge g importer name)
    | none => (freshPackage name, addEdge (appendNode g (freshPackage name)) importer name)
  superAddDistribution g dist :=
    ({ identifier := dist, kind := .distribution }, appendNode g { identifier := dist, kind := .distribution })
  addDependenciesForSource g _ := g

/-- The engine contract stated by spec §6, as used by the idempotency
arguments: a node created for `name` is afterwards found under `name`, a
created script is a `Script`, and importing a module records the importer
edge. -/
structure EngineSane (E : Engine) : Prop where
  addModuleFound : ∀ g name, findNode g name = none →
    findNode (E.superAddModule g name).2 name = some (E.superAddModule g name).1
  addScriptFound : ∀ g path, findNode g path = none →
    findNode (E.superAddScript g path).2 path = some (E.superAddScript g path).1
      ∧ (E.superAddScript g path).1.kind = .script
  importModuleFound : ∀ g importer name,
    findNode (E.superImportModule g importer name).2 name
        = some (E.superImportModule g importer name).1
      ∧ hasEdge (E.superImportModule g importer name).2 importer name = true
  importPackageFound : ∀ g importer name,
    findNode (E.superImportPackage g importer name).2 name
      = some (E.superImportPackage g importer name).1

/-! ### Basic lemmas about lookup and in-place update -/

theorem findNode_identifier {g : Graph} {name : String} {n : Node}
    (h : findNode g name = some n) : n.identifier = name := by
  have := List.find?_some h
  exact eq_of_beq this

theorem findNode_mem {g : Graph} {name : String} {n : Node}
    (h : findNode g name = some n) : n ∈ g.nodes :=
  List.mem_of_find?_eq_some h

theorem find?_map_ite {l : List Node} {a : String} {f : Node → Node}
    (hf : ∀ x, (f x).identifier = x.identifier) :
    (l.map (fun n => if n.identifier == a then f n else n)).find?
        (fun n => n.identifier == a)
      = (l.find? (fun n => n.identifier == a)).map f := by
  induction l with
  | nil => rfl
  | cons x xs ih =>
    simp only [List.map_cons]
    by_cases hx : (x.identifier == a) = true
    · rw [if_pos hx, List.find?_cons_of_pos _ (by rw [hf x]; exact hx),
        @List.find?_cons_of_pos _ (fun n => n.identifier == a) x xs hx]
      rfl
    · rw [if_neg hx, @List.find?_cons_of_neg _ (fun n => n.identifier == a) x _ hx,
        @List.find?_cons_of_neg _ (fun n => n.identifier == a) x xs hx, ih]

theorem findNode_updateNode {g : Graph} {a : String} {f : Node → Node}
    (hf : ∀ x, (f x).identifier = x.identifier) :
    findNode (updateNode g a f) a = (findNode g a).map f := by
  unfold findNode updateNode
  exact find?_map_ite hf

theorem setFullPackage_identifier (n : Node) :
    (setFullPackage n).identifier = n.identifier := rfl

theorem setZipsafeAttr_identifier (b : Bool) (n : Node) :
    (setZipsafeAttr b n).identifier = n.identifier := rfl

theorem findNode_addEdge (g : Graph) (a b : String) (name : String) :
    findNode (addEdge g a b) name = findNode g name := by
  unfold addEdge
  split <;> rfl

theorem findNode_appendNode_of_none {g : Graph} {name : String} (n : Node)
    (h : findNode g name = none) (hid : n.identifier = name) :
    findNode (appendNode g n) name = some n := by
  unfold findNode at *
  unfold appendNode
  simp only [List.find?_append, h, Option.none_or]
  simp [List.find?_cons, hid]

theorem hasEdge_addEdge (g : Graph) (a b : String) :
    hasEdge (addEdge g a b) a b = true := by
  unfold addEdge
  by_cases h : hasEdge g a b = true
  · rw [if_pos h]; exact h
  · rw [if_neg h]
    simp [hasEdge]

/-- The concrete engine satisfies the spec §6 contract. -/
theorem specEngine_sane : EngineSane specEngine := by
  constructor
  · intro g name h
    simp only [specEngine, h]
    exact findNode_appendNode_of_none _ h rfl
  · intro g path h
    simp only [specEngine]
    exact ⟨findNode_appendNode_of_none _ h rfl, rfl⟩
  · intro g importer name
    simp only [specEngine]
    cases h : findNode g name with
    | some n =>
      refine ⟨?_, hasEdge_addEdge _ _ _⟩
      rw [findNode_addEdge]
      exact h
    | none =>
      refine ⟨?_, hasEdge_addEdge _ _ _⟩
      rw [findNode_addEdge]
      exact findNode_appendNode_of_none _ h rfl
  · intro g importer name
    simp only [specEngine]
    cases h : findNode g name with
    | some n =>
      rw [findNode_addEdge]
      exact h
    | none =>
      rw [findNode_addEdge]
      exact findNode_appendNode_of_none _ h rfl

/-! ### Shape preservation: `is_zipsafe` only touches cached attributes -/

/-- The stable part of a node: identifier and kind are never mutated. -/
def nodeShape (n : Node) : String × NodeKind := (n.identifier, n.kind)

/-- The stable part of a graph. -/
def graphShape (g : Graph) : List (String × NodeKind) := g.nodes.map nodeShape

theorem map_shape_ite {l : List Node} {a : String} {f : Node → Node}
    (hf : ∀ x, nodeShape (f x) = nodeShape x) :
    (l.map (fun n => if n.identifier == a then f n else n)).map nodeShape
      = l.map nodeShape := by
  induction l with
  | nil => rfl
  | cons x xs ih =>
    simp only [List.map_cons, ih]
    by_cases hx : (x.identifier == a) = true
    · rw [if_pos hx, hf x]
    · rw [if_neg hx]

theorem graphShape_updateNode {g : Graph} {a : String} {f : Node → Node}
    (hf : ∀ x, nodeShape (f x) = nodeShape x) :
    graphShape (updateNode g a f) = graphShape g :=
  map_shape_ite hf

theorem zipsafeScan_shape (g : Graph) (base : Node) :
    graphShape (zipsafeScan g base).2 = graphShape g
      ∧ (zipsafeScan g base).2.edges = g.edges := by
  unfold zipsafeScan
  split
  · exact ⟨rfl, rfl⟩
  · dsimp only
    split
    · exact ⟨graphShape_updateNode (fun x => rfl), rfl⟩
    · exact ⟨graphShape_updateNode (fun x => rfl), rfl⟩

theorem is_zipsafe_shape {g : Graph} {node : Node} {b : Bool} {g' : Graph}
    (h : is_zipsafe g node = some (b, g')) :
    graphShape g' = graphShape g ∧ g'.edges = g.edges := by
  unfold is_zipsafe at h
  split at h
  · simp only [Option.some.injEq, Prod.mk.injEq] at h
    obtain ⟨rfl, rfl⟩ := h
    exact ⟨rfl, rfl⟩
  · split at h
    · simp only [Option.some.injEq, Prod.mk.injEq] at h
      obtain ⟨rfl, rfl⟩ := h
      exact ⟨rfl, rfl⟩
    · split at h
      · simp only [Option.some.injEq, Prod.mk.injEq] at h
        obtain ⟨rfl, rfl⟩ := h
        exact ⟨rfl, rfl⟩
      · split at h
        · simp only [Option.some.injEq, Prod.mk.injEq] at h
          obtain ⟨rfl, rfl⟩ := h
          exact ⟨graphShape_updateNode (fun x => rfl), rfl⟩
        · split at h
          · split at h
            · exact Option.noConfusion h
            · next base hbase =>
              rw [Option.some.injEq] at h
              have h2 : (zipsafeScan g base).2 = g' := congrArg Prod.snd h
              rw [← h2]
              exact zipsafeScan_shape g base
          · split at h
            · rw [Option.some.injEq] at h
              have h2 : (zipsafeScan g node).2 = g' := congrArg Prod.snd h
              rw [← h2]
              exact zipsafeScan_shape g node
            · simp only [Option.some.injEq, Prod.mk.injEq] at h
              obtain ⟨rfl, rfl⟩ := h
              exact ⟨rfl, rfl⟩

/-! ### The classifier's selection of shapes -/

/-- The shapes selected by one `collect_nodes` run over the index list
`idxs`: the shapes at those indices, kinds of the excluded set dropped. -/
def selectedShapes (g : Graph) (idxs : List Nat) : List (String × NodeKind) :=
  (idxs.filterMap (fun i => (graphShape g)[i]?)).filter
    (fun p => !p.2.isExcludedKind)

theorem selectedShapes_congr {g g' : Graph} (h : graphShape g' = graphShape g)
    (idxs : List Nat) : selectedShapes g' idxs = selectedShapes g idxs := by
  unfold selectedShapes
  rw [h]

theorem selectedShapes_cons_none {g : Graph} {i : Nat} (rest : List Nat)
    (h : g.nodes[i]? = none) :
    selectedShapes g (i :: rest) = selectedShapes g rest := by
  unfold selectedShapes graphShape
  rw [List.filterMap_cons]
  simp [List.getElem?_map, h]

theorem selectedShapes_cons_some {g : Graph} {i : Nat} {n : Node} (rest : List Nat)
    (h : g.nodes[i]? = some n) :
    selectedShapes g (i :: rest)
      = (if n.kind.isExcludedKind then [] else [nodeShape n])
          ++ selectedShapes g rest := by
  unfold selectedShapes graphShape
  rw [List.filterMap_cons]
  simp only [List.getElem?_map, h, Option.map_some']
  rw [List.filter_cons]
  by_cases hex : n.kind.isExcludedKind = true
  · simp [nodeShape, hex]
  · simp [nodeShape, hex]

/-- Master lemma about the classifier loop: the loop preserves the graph
shape; its outputs extend the accumulators by `zn`/`un` whose shapes are a
permutation of the selected shapes of the visited indices, and nothing that
is a top-level extension module ever lands on the archive side. -/
theorem collectGo_spec :
    ∀ (idxs : List Nat) (g : Graph) (zips unzips zs us : List Node) (gf : Graph),
    collectGo g idxs zips unzips = some (zs, us, gf) →
    graphShape gf = graphShape g ∧
    ∃ zn un, zs = zips ++ zn ∧ us = unzips ++ un ∧
      List.Perm ((zn ++ un).map nodeShape) (selectedShapes g idxs) ∧
      ∀ x ∈ zn, ¬(x.kind = NodeKind.extensionModule ∧ strHasDot x.identifier = false) := by
  intro idxs
  induction idxs with
  | nil =>
    intro g zips unzips zs us gf h
    unfold collectGo at h
    simp only [Option.some.injEq, Prod.mk.injEq] at h
    obtain ⟨rfl, rfl, rfl⟩ := h
    refine ⟨rfl, [], [], by simp, by simp, by simp [selectedShapes], by simp⟩
  | cons i rest ih =>
    intro g zips unzips zs us gf h
    unfold collectGo at h
    cases hnode : g.nodes[i]? with
    | none =>
      rw [hnode] at h
      obtain ⟨hsh, zn, un, h1, h2, hperm, hzn⟩ := ih g zips unzips zs us gf h
      exact ⟨hsh, zn, un, h1, h2,
        by rw [selectedShapes_cons_none rest hnode]; exact hperm, hzn⟩
    | some node =>
      rw [hnode] at h
      dsimp only at h
      by_cases hex : node.kind.isExcludedKind = true
      · rw [if_pos hex] at h
        obtain ⟨hsh, zn, un, h1, h2, hperm, hzn⟩ := ih g zips unzips zs us gf h
        refine ⟨hsh, zn, un, h1, h2, ?_, hzn⟩
        rw [selectedShapes_cons_some rest hnode, if_pos hex, List.nil_append]
        exact hperm
      · rw [if_neg hex] at h
        by_cases hext :
            (node.kind == NodeKind.extensionModule && !strHasDot node.identifier) = true
        · rw [if_pos hext] at h
          obtain ⟨hsh, zn, un, h1, h2, hperm, hzn⟩ :=
            ih g zips (unzips ++ [node]) zs us gf h
          refine ⟨hsh, zn, node :: un, h1, ?_, ?_, hzn⟩
          · rw [h2, List.append_assoc]
            rfl
          · rw [selectedShapes_cons_some rest hnode, if_neg hex]
            have hmid : List.Perm (zn ++ node :: un) (node :: (zn ++ un)) :=
              List.perm_middle
            refine (hmid.map nodeShape).trans ?_
            exact List.Perm.cons _ hperm
        · rw [if_neg hext] at h
          cases hz : is_zipsafe g node with
          | none =>
            rw [hz] at h
            exact Option.noConfusion h
          | some pr =>
            obtain ⟨bb, g2⟩ := pr
            rw [hz] at h
            have hshape := (is_zipsafe_shape hz).1
            cases bb with
            | true =>
              obtain ⟨hsh, zn, un, h1, h2, hperm, hzn⟩ :=
                ih g2 (zips ++ [node]) unzips zs us gf h
              refine ⟨hsh.trans hshape, node :: zn, un, ?_, h2, ?_, ?_⟩
              · rw [h1, List.append_assoc]
                rfl
              · rw [selectedShapes_cons_some rest hnode, if_neg hex]
                rw [selectedShapes_congr hshape rest] at hperm
                exact List.Perm.cons _ hperm
              · intro x hx
                rcases List.mem_cons.mp hx with rfl | hx2
                · rintro ⟨hk, hdot⟩
                  apply hext  -- hext is the negation; derive the conjunction
                  rw [hk, hdot]
                  rfl
                · exact hzn x hx2
            | false =>
              obtain ⟨hsh, zn, un, h1, h2, hperm, hzn⟩ :=
                ih g2 zips (unzips ++ [node]) zs us gf h
              refine ⟨hsh.trans hshape, zn, node :: un, h1, ?_, ?_, hzn⟩
              · rw [h2, List.append_assoc]
                rfl
              · rw [selectedShapes_cons_some rest hnode, if_neg hex]
                rw [selectedShapes_congr hshape rest] at hperm
                have hmid : List.Perm (zn ++ node :: un) (node :: (zn ++ un)) :=
                  List.perm_middle
                refine (hmid.map nodeShape).trans ?_
                exact List.Perm.cons _ hperm

theorem filterMap_range_getElem {α : Type} :
    ∀ (l : List α), (List.range l.length).filterMap (fun i => l[i]?) = l := by
  intro l
  induction l with
  | nil => rfl
  | cons x xs ih =>
    rw [List.length_cons, List.range_succ_eq_map, List.filterMap_cons]
    simp only [List.getElem?_cons_zero, List.filterMap_map]
    congr 1
    have hc : ((fun i => (x :: xs)[i]?) ∘ Nat.succ) = fun i => xs[i]? := by
      funext i
      simp
    rw [hc, ih]

theorem selectedShapes_range (g : Graph) :
    selectedShapes g (List.range g.nodes.length)
      = (graphShape g).filter (fun p => !p.2.isExcludedKind) := by
  unfold selectedShapes
  congr 1
  have hl : g.nodes.length = (graphShape g).length := by
    unfold graphShape
    rw [List.length_map]
  rw [hl, filterMap_range_getElem]

theorem map_fst_shape (l : List Node) :
    (l.map nodeShape).map Prod.fst = l.map (fun n => n.identifier) := by
  rw [List.map_map]
  rfl

theorem length_filter_not_add (l : List Node) (p : Node → Bool) :
    (l.filter (fun a => !p a)).length + (l.filter p).length = l.length := by
  induction l with
  | nil => rfl
  | cons x xs ih =>
    cases hx : p x
    all_goals simp [List.filter_cons, hx]
    all_goals omega

/-- C4: for every graph (with the unique-identifier invariant of spec §3)
on which `collect_nodes` succeeds, the two returned lists are disjoint,
contain no excluded-kind node, cover every non-excluded node exactly once,
and their sizes add up to the node count minus the excluded count. -/
theorem C4_collect_nodes_partition {g : Graph} {zs us : List Node} {gf : Graph}
    (hu : (g.nodes.map (fun n => n.identifier)).Nodup)
    (h : collect_nodes g = some (zs, us, gf)) :
    zs.length + us.length
        = g.nodes.length - (g.nodes.filter (fun n => n.kind.isExcludedKind)).length
      ∧ (∀ x ∈ zs ++ us, x.kind.isExcludedKind = false)
      ∧ ((zs ++ us).map (fun n => n.identifier)).Nodup
      ∧ (∀ n ∈ g.nodes, n.kind.isExcludedKind = false →
          n.identifier ∈ (zs ++ us).map (fun n => n.identifier))
      ∧ ∀ a, a ∈ zs.map (fun n => n.identifier) →
          a ∈ us.map (fun n => n.identifier) → False := by
  obtain ⟨hsh, zn, un, h1, h2, hperm, hzn⟩ :=
    collectGo_spec (List.range g.nodes.length) g [] [] zs us gf h
  rw [List.nil_append] at h1 h2
  subst h1
  subst h2
  rw [selectedShapes_range g] at hperm
  have hfilter : (graphShape g).filter (fun p => !p.2.isExcludedKind)
      = (g.nodes.filter (fun n => !n.kind.isExcludedKind)).map nodeShape := by
    unfold graphShape
    rw [List.filter_map]
    rfl
  have hids : ((zs ++ us).map nodeShape).map Prod.fst
      = (zs ++ us).map (fun n => n.identifier) := map_fst_shape _
  have hids2 : ((g.nodes.filter (fun n => !n.kind.isExcludedKind)).map nodeShape).map Prod.fst
      = (g.nodes.filter (fun n => !n.kind.isExcludedKind)).map (fun n => n.identifier) :=
    map_fst_shape _
  have hpermIds : ((zs ++ us).map (fun n => n.identifier)).Perm
      ((g.nodes.filter (fun n => !n.kind.isExcludedKind)).map (fun n => n.identifier)) := by
    rw [← hids, ← hids2]
    exact (hperm.map Prod.fst).trans (by rw [hfilter])
  have hnodupIds : ((zs ++ us).map (fun n => n.identifier)).Nodup := by
    refine hpermIds.symm.nodup ?_
    refine List.Nodup.sublist ?_ hu
    exact List.Sublist.map _ (List.filter_sublist _)
  refine ⟨?_, ?_, hnodupIds, ?_, ?_⟩
  · have hlen := hperm.length_eq
    rw [List.length_map, List.length_append, hfilter, List.length_map] at hlen
    have htot := length_filter_not_add g.nodes (fun n => n.kind.isExcludedKind)
    omega
  · intro x hx
    have hmem : nodeShape x ∈ (graphShape g).filter (fun p => !p.2.isExcludedKind) :=
      hperm.subset (List.mem_map_of_mem nodeShape hx)
    have := List.of_mem_filter hmem
    simpa [nodeShape] using this
  · intro n hn hkind
    have hmem : nodeShape n ∈ (graphShape g).filter (fun p => !p.2.isExcludedKind) := by
      refine List.mem_filter_of_mem (List.mem_map_of_mem nodeShape hn) ?_
      simp [nodeShape, hkind]
    have hmem2 : nodeShape n ∈ (zs ++ us).map nodeShape := hperm.symm.subset hmem
    obtain ⟨x, hx, hxe⟩ := List.mem_map.mp hmem2
    have : x.identifier = n.identifier := congrArg Prod.fst hxe
    rw [← this]
    exact List.mem_map_of_mem _ hx
  · intro a haz hau
    rw [List.map_append] at hnodupIds
    rw [List.nodup_append] at hnodupIds
    exact hnodupIds.2.2 haz hau

/-- C5: a top-level `ExtensionModule` (no dot in its identifier) always ends
up in the loose list of `collect_nodes`; nevertheless `is_zipsafe` reports
it safe (it has no dot, so the standalone-module default applies) whenever
it carries no cached verdict and no `__file__` dependence. -/
theorem C5_toplevel_extension_loose {g : Graph} {zs us : List Node} {gf : Graph}
    (h : collect_nodes g = some (zs, us, gf)) {n : Node} (hn : n ∈ g.nodes)
    (hk : n.kind = NodeKind.extensionModule) (hd : strHasDot n.identifier = false) :
    n.identifier ∈ us.map (fun m => m.identifier)
      ∧ (n.attrs.zipsafe = none → n.usesDunderFile = false →
          is_zipsafe g n = some (true, g)) := by
  obtain ⟨hsh, zn, un, h1, h2, hperm, hzn⟩ :=
    collectGo_spec (List.range g.nodes.length) g [] [] zs us gf h
  rw [List.nil_append] at h1 h2
  subst h1
  subst h2
  rw [selectedShapes_range g] at hperm
  constructor
  · have hmem : nodeShape n ∈ (graphShape g).filter (fun p => !p.2.isExcludedKind) := by
      refine List.mem_filter_of_mem (List.mem_map_of_mem nodeShape hn) ?_
      simp [nodeShape, hk, NodeKind.isExcludedKind]
    have hmem2 : nodeShape n ∈ (zs ++ us).map nodeShape := hperm.symm.subset hmem
    obtain ⟨x, hx, hxe⟩ := List.mem_map.mp hmem2
    have hxid : x.identifier = n.identifier := congrArg Prod.fst hxe
    have hxkind : x.kind = n.kind := congrArg Prod.snd hxe
    rcases List.mem_append.mp hx with hxz | hxu
    · exact absurd ⟨by rw [hxkind, hk], by rw [hxid]; exact hd⟩ (hzn x hxz)
    · rw [← hxid]
      exact List.mem_map_of_mem _ hxu
  · intro hc hdund
    simp [is_zipsafe, hk, hc, hdund, hd, NodeKind.isMPN, NodeKind.isModuleInstance]

/-- A concrete plain module. -/
def nodeModA : Node := { identifier := "a", kind := NodeKind.module }

/-- A concrete builtin module (excluded kind). -/
def nodeBuiltinB : Node := { identifier := "b", kind := NodeKind.builtinModule }

/-- A concrete top-level extension module. -/
def nodeExtE : Node := { identifier := "e", kind := NodeKind.extensionModule }

/-- Concrete two-node graph for the partition witness. -/
def w4g : Graph := { nodes := [nodeModA, nodeBuiltinB], edges := [] }

/-- Concrete one-node graph for the extension witness. -/
def w5g : Graph := { nodes := [nodeExtE], edges := [] }

/-- Witness for C4 at a concrete graph. -/
theorem C4_collect_nodes_partition_witness :
    collect_nodes w4g = some ([nodeModA], [], w4g)
      ∧ [nodeModA].length + ([] : List Node).length
          = w4g.nodes.length
              - (w4g.nodes.filter (fun n => n.kind.isExcludedKind)).length := by
  have hc : collect_nodes w4g = some ([nodeModA], [], w4g) := by decide
  exact ⟨hc, (C4_collect_nodes_partition (by decide) hc).1⟩

/-- Witness for C5 at a concrete graph. -/
theorem C5_toplevel_extension_loose_witness :
    collect_nodes w5g = some ([], [nodeExtE], w5g)
      ∧ nodeExtE.identifier ∈ [nodeExtE].map (fun m => m.identifier)
      ∧ is_zipsafe w5g nodeExtE = some (true, w5g) := by
  have hc : collect_nodes w5g = some ([], [nodeExtE], w5g) := by decide
  have h := @C5_toplevel_extension_loose w5g [] [nodeExtE] w5g hc nodeExtE
    (by decide) (by decide) (by decide)
  exact ⟨hc, h.1, h.2 rfl rfl⟩

/-- C9: a Module/Package/NamespacePackage node with a dotted identifier, no
cached verdict, undecided by the earlier rules, whose root component has no
node in the graph, makes `is_zipsafe` fail its programmer-error assertion
(`assert base is not None`) instead of returning a verdict. -/
theorem C9_missing_root_assertion {g : Graph} {node : Node}
    (h1 : node.kind.isMPN = true)
    (h2 : node.attrs.zipsafe = none)
    (h3 : (node.kind.isModuleInstance && node.usesDunderFile) = false)
    (h4 : (node.kind == NodeKind.package && pkgInitUnsafe node) = false)
    (h5 : strHasDot node.identifier = true)
    (h6 : findNode g (rootName node.identifier) = none) :
    is_zipsafe g node = none := by
  simp [is_zipsafe, h1, h2, h3, h4, h5, h6]

/-- A concrete dotted module whose root package is missing. -/
def node9 : Node := { identifier := "a.b", kind := NodeKind.module }

/-- A graph holding only the orphan dotted module. -/
def g9 : Graph := { nodes := [node9], edges := [] }

/-- Witness for C9 at a concrete input. -/
theorem C9_missing_root_assertion_witness :
    strHasDot node9.identifier = true
      ∧ findNode g9 (rootName node9.identifier) = none
      ∧ is_zipsafe g9 node9 = none := by
  refine ⟨by decide, by decide, ?_⟩
  exact C9_missing_root_assertion (by decide) (by decide) (by decide) (by decide)
    (by decide) (by decide)

/-- C10: a `Module` that uses `__file__` and has no cached verdict is
reported unsafe by `is_zipsafe` with no cache written (the graph is returned
unchanged); the rule-5 subtree scan only sees explicitly cached `False`
attributes, so a root package none of whose descendants carry a cached
`False` is cached and reported safe, even though such a module is among its
descendants and keeps being reported unsafe afterwards. -/
theorem C10_dunder_module_uncached {g : Graph} {m root : Node}
    (hmk : m.kind = NodeKind.module)
    (hmc : m.attrs.zipsafe = none)
    (hmd : m.usesDunderFile = true)
    (hrk : root.kind = NodeKind.package)
    (hrc : root.attrs.zipsafe = none)
    (hri : pkgInitUnsafe root = false)
    (hrd : strHasDot root.identifier = false)
    (hdesc : strStartsWith m.identifier (root.identifier ++ ".") = true)
    (hscan : ∀ sub ∈ g.nodes,
      strStartsWith sub.identifier (root.identifier ++ ".") = true →
      sub.attrs.zipsafe ≠ some false) :
    is_zipsafe g m = some (false, g)
      ∧ is_zipsafe g root
          = some (true, updateNode g root.identifier (setZipsafeAttr true))
      ∧ is_zipsafe (updateNode g root.identifier (setZipsafeAttr true)) m
          = some (false, updateNode g root.identifier (setZipsafeAttr true)) := by
  have hm : ∀ g2 : Graph, is_zipsafe g2 m = some (false, g2) := by
    intro g2
    simp [is_zipsafe, hmk, hmc, hmd, NodeKind.isMPN, NodeKind.isModuleInstance]
  have hany : (g.nodes.any fun sub =>
      strStartsWith sub.identifier (root.identifier ++ ".")
        && sub.attrs.zipsafe == some false) = false := by
    rw [List.any_eq_false]
    intro sub hsub
    cases hss : strStartsWith sub.identifier (root.identifier ++ ".")
    · simp
    · have hne := hscan sub hsub hss
      simp [beq_eq_false_iff_ne.mpr hne]
  refine ⟨hm g, ?_, hm _⟩
  have hscanEq : zipsafeScan g root
      = (true, updateNode g root.identifier (setZipsafeAttr true)) := by
    unfold zipsafeScan
    rw [hrc]
    dsimp only
    rw [hany]
    simp
  simp [is_zipsafe, hrk, hrc, hri, hrd, NodeKind.isMPN, NodeKind.isModuleInstance,
    hscanEq]

/-- Concrete safe root package. -/
def node10root : Node :=
  { identifier := "p", kind := NodeKind.package,
    initModule := { isModuleInstance := true } }

/-- Concrete descendant module that uses `__file__`. -/
def node10m : Node :=
  { identifier := "p.m", kind := NodeKind.module, usesDunderFile := true }

/-- Graph with the safe root and its `__file__`-using descendant. -/
def g10 : Graph := { nodes := [node10root, node10m], edges := [] }

/-- Witness for C10 at a concrete input. -/
theorem C10_dunder_module_uncached_witness :
    is_zipsafe g10 node10m = some (false, g10)
      ∧ is_zipsafe g10 node10root
          = some (true, updateNode g10 "p" (setZipsafeAttr true))
      ∧ is_zipsafe (updateNode g10 "p" (setZipsafeAttr true)) node10m
          = some (false, updateNode g10 "p" (setZipsafeAttr true)) := by
  exact @C10_dunder_module_uncached g10 node10m node10root (by decide) (by decide)
    (by decide) (by decide) (by decide) (by decide) (by decide) (by decide)
    (by decide)

/-- The scenario script node `app`. -/
def c2app : Node := { identifier := "app", kind := NodeKind.script }

/-- The scenario module `app.util` (no `__file__` dependence). -/
def c2util : Node := { identifier := "app.util", kind := NodeKind.module }

/-- The scenario package `app.pkg` whose initializer uses `__file__`. -/
def c2pkg : Node :=
  { identifier := "app.pkg", kind := NodeKind.package,
    initModule := { isModuleInstance := true, usesDunderFile := true } }

/-- The scenario module `app.pkg.sub` (no unsafe marker). -/
def c2sub : Node := { identifier := "app.pkg.sub", kind := NodeKind.module }

/-- The scenario graph. -/
def c2g0 : Graph := { nodes := [c2app, c2util, c2pkg, c2sub], edges := [] }

/-- The graph after the first query (`app` cached safe). -/
def c2g1 : Graph := updateNode c2g0 "app" (setZipsafeAttr true)

/-- The graph after the second query (`app.pkg` additionally cached unsafe). -/
def c2g2 : Graph := updateNode c2g1 "app.pkg" (setZipsafeAttr false)

/-- C2 evaluated on the code: the three queries in the claimed order return
true, false and then TRUE (not the claimed false) for `app.pkg.sub`, because
the first query cached the root `app` as safe before `app.pkg`'s unsafety
was discovered; `collect_nodes` run afterwards accordingly places
`app.pkg.sub` in the archive list, not the loose list. -/
theorem C2_scenario_code_eval :
    findNode c2g0 "app.util" = some c2util
      ∧ is_zipsafe c2g0 c2util = some (true, c2g1)
      ∧ findNode c2g1 "app.pkg" = some c2pkg
      ∧ is_zipsafe c2g1 c2pkg = some (false, c2g2)
      ∧ findNode c2g2 "app.pkg.sub" = some c2sub
      ∧ is_zipsafe c2g2 c2sub = some (true, c2g2)
      ∧ ∃ zs us gf, collect_nodes c2g2 = some (zs, us, gf)
          ∧ zs.map (fun n => n.identifier) = ["app", "app.util", "app.pkg.sub"]
          ∧ us.map (fun n => n.identifier) = ["app.pkg"] := by
  refine ⟨by decide, by decide, by decide, by decide, by decide, by decide, ?_⟩
  exact ⟨[setZipsafeAttr true c2app, c2util, c2sub], [setZipsafeAttr false c2pkg],
    c2g2, by decide, by decide, by decide⟩

theorem bootstrapAttr_inv {g : Graph} {name : String} {l : List String}
    (h : bootstrapAttr g name = l) (hne : l ≠ []) :
    ∃ n, findNode g name = some n ∧ n.attrs.bootstrap = l := by
  unfold bootstrapAttr at h
  cases hf : findNode g name with
  | none =>
    rw [hf] at h
    simp at h
    exact absurd h hne
  | some n =>
    rw [hf] at h
    simp at h
    exact ⟨n, rfl, h⟩

theorem bootstrapAttr_update_append {g : Graph} {name src : String} {n : Node}
    (hf : findNode g name = some n) :
    bootstrapAttr (updateNode g name
        (fun n => { n with attrs := { n.attrs with bootstrap := n.attrs.bootstrap ++ [src] } }))
        name
      = n.attrs.bootstrap ++ [src] := by
  unfold bootstrapAttr
  rw [@findNode_updateNode g name
    (fun n => { n with attrs := { n.attrs with bootstrap := n.attrs.bootstrap ++ [src] } })
    (fun x => rfl), hf]
  rfl

/-- C6: starting from a node with no scriptlets, adding scriptlets "A", "B",
"A" leaves the node's bootstrap as "A" joined to "B" by one newline (the
duplicate is dropped, insertion order kept); and `bootstrap` of a node with
no scriptlets is `none`.  Quantified over any engine whose dependency scan
leaves nodes' bootstrap attributes alone (spec §6: the scan only grows the
graph). -/
theorem C6_bootstrap_dedup_order (E : Engine)
    (hE : ∀ g s name, bootstrapAttr (E.addDependenciesForSource g s) name
            = bootstrapAttr g name)
    {g : Graph} {name : String} {n : Node} (a b : String)
    (hfind : findNode g name = some n)
    (hempty : n.attrs.bootstrap = [])
    (hab : a ≠ b) :
    (∃ n3, findNode (add_bootstrap_scriptlet E (add_bootstrap_scriptlet E
          (add_bootstrap_scriptlet E g name a) name b) name a) name = some n3
        ∧ bootstrap n3 = some (a ++ "\n" ++ b))
      ∧ bootstrap n = none := by
  have h0 : bootstrapAttr g name = [] := by
    simp [bootstrapAttr, hfind, hempty]
  have hstep1 : bootstrapAttr (add_bootstrap_scriptlet E g name a) name = [a] := by
    unfold add_bootstrap_scriptlet
    rw [h0]
    rw [if_neg (by simp)]
    rw [hE]
    rw [bootstrapAttr_update_append hfind, hempty]
    rfl
  obtain ⟨n1, hf1, hb1⟩ := bootstrapAttr_inv hstep1 (by simp)
  have hstep2 : bootstrapAttr (add_bootstrap_scriptlet E
      (add_bootstrap_scriptlet E g name a) name b) name = [a, b] := by
    conv =>
      lhs
      rw [add_bootstrap_scriptlet]
    rw [hstep1]
    rw [if_neg (by simp [hab, Ne.symm hab])]
    rw [hE]
    rw [bootstrapAttr_update_append hf1, hb1]
    rfl
  have hstep3 : add_bootstrap_scriptlet E (add_bootstrap_scriptlet E
        (add_bootstrap_scriptlet E g name a) name b) name a
      = add_bootstrap_scriptlet E (add_bootstrap_scriptlet E g name a) name b := by
    conv =>
      lhs
      rw [add_bootstrap_scriptlet]
    rw [hstep2]
    rw [if_pos (by simp)]
  obtain ⟨n3, hf3, hb3⟩ := bootstrapAttr_inv hstep2 (by simp)
  refine ⟨⟨n3, by rw [hstep3]; exact hf3, ?_⟩, ?_⟩
  · unfold bootstrap
    rw [hb3]
    rfl
  · unfold bootstrap
    rw [hempty]

/-- A one-node graph used by the metadata witnesses. -/
def w6g : Graph := { nodes := [nodeModA], edges := [] }

/-- Witness for C6 at concrete inputs, with the concrete engine. -/
theorem C6_bootstrap_dedup_order_witness :
    (∃ n3, findNode (add_bootstrap_scriptlet specEngine (add_bootstrap_scriptlet
          specEngine (add_bootstrap_scriptlet specEngine w6g "a" "A") "a" "B")
          "a" "A") "a" = some n3
        ∧ bootstrap n3 = some ("A" ++ "\n" ++ "B"))
      ∧ bootstrap nodeModA = none := by
  exact @C6_bootstrap_dedup_order specEngine (fun g s name => rfl) w6g "a" nodeModA
    "A" "B" (by decide) (by decide) (by decide)

theorem extendDedup_nodup :
    ∀ (new cur : List Resource), cur.Nodup → (extendDedup cur new).Nodup := by
  intro new
  induction new with
  | nil =>
    intro cur h
    exact h
  | cons r rs ih =>
    intro cur h
    unfold extendDedup
    rw [List.foldl_cons]
    by_cases hr : r ∈ cur
    · rw [if_pos hr]
      exact ih cur h
    · rw [if_neg hr]
      refine ih _ ?_
      simp [List.nodup_append, h, hr]

/-- C7: the resource list of every node stays duplicate-free under
`add_resources` (the Python generator's membership test runs against the
growing list, so duplicates inside one call are dropped too), and two
identical `add_resources(n, [r])` calls leave exactly one entry equal to
`r`. -/
theorem C7_resources_dedup :
    (∀ (g : Graph) (name : String) (rs : List Resource),
      (∀ n ∈ g.nodes, n.attrs.resources.Nodup) →
      ∀ n2 ∈ (add_resources g name rs).nodes, n2.attrs.resources.Nodup)
      ∧ ∀ (g : Graph) (name : String) (n : Node) (r : Resource),
          findNode g name = some n → n.attrs.resources = [] →
          (resourcesAttr (add_resources (add_resources g name [r]) name [r])
              name).count r = 1 := by
  constructor
  · intro g name rs hall n2 hn2
    unfold add_resources updateNode at hn2
    obtain ⟨x, hx, hxe⟩ := List.mem_map.mp hn2
    by_cases hxi : (x.identifier == name) = true
    · rw [if_pos hxi] at hxe
      rw [← hxe]
      exact extendDedup_nodup rs _ (hall x hx)
    · rw [if_neg hxi] at hxe
      rw [← hxe]
      exact hall x hx
  · intro g name n r hfind hres
    have hf1 : findNode (add_resources g name [r]) name
        = some { n with attrs := { n.attrs with
            resources := extendDedup n.attrs.resources [r] } } := by
      unfold add_resources
      rw [@findNode_updateNode g name
        (fun n => { n with attrs := { n.attrs with
          resources := extendDedup n.attrs.resources [r] } })
        (fun x => rfl), hfind]
      rfl
    have h2 : resourcesAttr (add_resources (add_resources g name [r]) name [r])
        name = extendDedup (extendDedup n.attrs.resources [r]) [r] := by
      unfold resourcesAttr
      conv =>
        lhs
        rw [add_resources]
      rw [@findNode_updateNode (add_resources g name [r]) name
        (fun n => { n with attrs := { n.attrs with
          resources := extendDedup n.attrs.resources [r] } })
        (fun x => rfl), hf1]
      rfl
    rw [h2, hres]
    have hstep : extendDedup (extendDedup [] [r]) [r] = [r] := by
      simp [extendDedup]
    rw [hstep]
    simp [List.count_cons]

/-- A concrete resource. -/
def res1 : Resource := { source := "s", destination := "d" }

/-- Witness for C7 at concrete inputs. -/
theorem C7_resources_dedup_witness :
    ((∀ n ∈ w6g.nodes, n.attrs.resources.Nodup) →
      ∀ n2 ∈ (add_resources w6g "a" [res1, res1]).nodes, n2.attrs.resources.Nodup)
      ∧ (resourcesAttr (add_resources (add_resources w6g "a" [res1]) "a" [res1])
          "a").count res1 = 1 := by
  refine ⟨C7_resources_dedup.1 w6g "a" [res1, res1], ?_⟩
  exact C7_resources_dedup.2 w6g "a" nodeModA res1 (by decide) (by decide)

/-- Wrapper state with an existing importer and target but no edge, and one
active change tracker. -/
def c1m : MG :=
  { graph := { nodes := [freshScript "main", freshModule "util"], edges := [] },
    trackers := [false] }

/-- Counterexample to C1 as stated: with the target node present but the
edge absent, `import_module` DOES signal change (the tracker flips to true)
and the delegated engine import records the edge. -/
theorem C1_import_module_counterexample :
    findNode c1m.graph "util" = some (freshModule "util")
      ∧ hasEdge c1m.graph "main" "util" = false
      ∧ ((import_module specEngine c1m "main" "util").2).trackers = [true]
      ∧ hasEdge ((import_module specEngine c1m "main" "util").2).graph
          "main" "util" = true := by
  decide

/-- C1 amended: `import_module` returns the existing node with no change
signalled only when the probed edge already exists; when the node exists but
the edge is absent, the call signals change to every active tracker and
delegates to the engine import, after which (for a contract-conforming
engine) the edge exists and the returned node is found under the name. -/
theorem C1_import_module_amended (E : Engine) (m : MG) (importer name : String)
    (node : Node) (hfind : findNode m.graph name = some node) :
    (hasEdge m.graph importer name = true →
      import_module E m importer name = (node, m))
    ∧ (hasEdge m.graph importer name = false →
        ((import_module E m importer name).2).trackers
            = m.trackers.map (fun _ => true)
          ∧ (EngineSane E →
              hasEdge ((import_module E m importer name).2).graph
                  importer name = true
                ∧ findNode ((import_module E m importer name).2).graph name
                    = some (import_module E m importer name).1)) := by
  have hid : node.identifier = name := findNode_identifier hfind
  constructor
  · intro he
    unfold import_module
    rw [hfind]
    dsimp only
    rw [hid, if_pos he]
  · intro he
    unfold import_module
    rw [hfind]
    dsimp only
    rw [hid, if_neg (by rw [he]; exact Bool.false_ne_true)]
    refine ⟨rfl, fun hE => ?_⟩
    exact ⟨(hE.importModuleFound m.graph importer name).2,
      (hE.importModuleFound m.graph importer name).1⟩

/-- Witness for the amended C1 at a concrete input. -/
theorem C1_import_module_amended_witness :
    ((import_module specEngine c1m "main" "util").2).trackers = [true]
      ∧ hasEdge ((import_module specEngine c1m "main" "util").2).graph
          "main" "util" = true := by
  have h := C1_import_module_amended specEngine c1m "main" "util"
    (freshModule "util") (by decide)
  have h2 := h.2 (by decide)
  exact ⟨h2.1.trans (by decide), (h2.2 specEngine_sane).1⟩

/-- The stable state an add/import operation leaves behind: the condition
that makes every later identical call an early return. -/
def FixedAt (op : GrowOp) (n1 : Node) (g : Graph) : Prop :=
  match op with
  | .addModule name => findNode g name = some n1
  | .addScript path => findNode g path = some n1 ∧ n1.kind = NodeKind.script
  | .importModule importer name =>
      findNode g name = some n1 ∧ hasEdge g importer name = true
  | .importPackage _ name =>
      findNode g name = some n1 ∧ n1.attrs.fullPackage = true
  | .addDistribution _ => False

/-- After a successful add/import call, the resulting graph is in the stable
state for that call (using the spec §6 contract for the delegated cases). -/
theorem growFixedAt_of_run {E : Engine} (hE : EngineSane E) {m : MG}
    {op : GrowOp} (hop : op.isAddImport = true) {n1 : Node} {m1 : MG}
    (h1 : runOp E m op = (some n1, m1)) : FixedAt op n1 m1.graph := by
  cases op with
  | addModule name =>
    unfold runOp add_module at h1
    dsimp only at h1
    cases hf : findNode m.graph name with
    | some node =>
      rw [hf] at h1
      simp only [Option.some.injEq, Prod.mk.injEq] at h1
      obtain ⟨rfl, rfl⟩ := h1
      exact hf
    | none =>
      rw [hf] at h1
      simp only [Option.some.injEq, Prod.mk.injEq] at h1
      obtain ⟨rfl, rfl⟩ := h1
      exact hE.addModuleFound m.graph name hf
  | addScript path =>
    unfold runOp add_script at h1
    dsimp only at h1
    cases hf : findNode m.graph path with
    | some node =>
      rw [hf] at h1
      dsimp only at h1
      by_cases hk : (node.kind == NodeKind.script) = true
      · rw [if_pos hk] at h1
        simp only [Option.some.injEq, Prod.mk.injEq] at h1
        obtain ⟨rfl, rfl⟩ := h1
        exact ⟨hf, eq_of_beq hk⟩
      · rw [if_neg hk] at h1
        simp only [Prod.mk.injEq] at h1
        exact Option.noConfusion h1.1
    | none =>
      rw [hf] at h1
      simp only [Option.some.injEq, Prod.mk.injEq] at h1
      obtain ⟨rfl, rfl⟩ := h1
      exact hE.addScriptFound m.graph path hf
  | importModule importer name =>
    unfold runOp import_module at h1
    dsimp only at h1
    cases hf : findNode m.graph name with
    | some node =>
      rw [hf] at h1
      dsimp only at h1
      by_cases he : hasEdge m.graph importer node.identifier = true
      · rw [if_pos he] at h1
        simp only [Option.some.injEq, Prod.mk.injEq] at h1
        obtain ⟨rfl, rfl⟩ := h1
        exact ⟨hf, by rw [← findNode_identifier hf]; exact he⟩
      · rw [if_neg he] at h1
        unfold importModuleGrow at h1
        dsimp only at h1
        simp only [Option.some.injEq, Prod.mk.injEq] at h1
        obtain ⟨rfl, rfl⟩ := h1
        exact ⟨(hE.importModuleFound m.graph importer name).1,
          (hE.importModuleFound m.graph importer name).2⟩
    | none =>
      rw [hf] at h1
      unfold importModuleGrow at h1
      dsimp only at h1
      simp only [Option.some.injEq, Prod.mk.injEq] at h1
      obtain ⟨rfl, rfl⟩ := h1
      exact ⟨(hE.importModuleFound m.graph importer name).1,
        (hE.importModuleFound m.graph importer name).2⟩
  | importPackage importer name =>
    have hgrow : importPackageGrow E m importer name = (n1, m1) →
        FixedAt (GrowOp.importPackage importer name) n1 m1.graph := by
      intro hg2
      unfold importPackageGrow at hg2
      dsimp only at hg2
      simp only [Prod.mk.injEq] at hg2
      obtain ⟨rfl, rfl⟩ := hg2
      have hfound := hE.importPackageFound (setUpdated m).graph importer name
      have hidr : (E.superImportPackage (setUpdated m).graph importer name).1.identifier
          = name := findNode_identifier hfound
      constructor
      · show findNode (updateNode _ _ setFullPackage) name = _
        rw [hidr, @findNode_updateNode
          (E.superImportPackage (setUpdated m).graph importer name).2 name
          setFullPackage (fun x => rfl), hfound]
        rfl
      · rfl
    unfold runOp import_package at h1
    dsimp only at h1
    cases hf : findNode m.graph name with
    | some node =>
      rw [hf] at h1
      dsimp only at h1
      by_cases hflag : node.attrs.fullPackage = true
      · rw [if_pos hflag] at h1
        simp only [Option.some.injEq, Prod.mk.injEq] at h1
        obtain ⟨rfl, rfl⟩ := h1
        exact ⟨hf, hflag⟩
      · rw [if_neg hflag] at h1
        refine hgrow ?_
        cases hp : importPackageGrow E m importer name with
        | mk a b =>
          rw [hp] at h1
          simp only [Option.some.injEq, Prod.mk.injEq] at h1
          rw [h1.1, h1.2]
    | none =>
      rw [hf] at h1
      refine hgrow ?_
      cases hp : importPackageGrow E m importer name with
      | mk a b =>
        rw [hp] at h1
        simp only [Option.some.injEq, Prod.mk.injEq] at h1
        rw [h1.1, h1.2]
  | addDistribution dist => exact Bool.noConfusion hop

/-- In the stable state, one more identical call is a pure no-op returning
the same node, whatever the active trackers are. -/
theorem runOp_of_fixedAt (E : Engine) {op : GrowOp} {n1 : Node} {g : Graph}
    (hfix : FixedAt op n1 g) (t : List Bool) :
    runOp E { graph := g, trackers := t } op
      = (some n1, { graph := g, trackers := t }) := by
  cases op with
  | addModule name =>
    unfold runOp add_module
    dsimp only
    rw [hfix]
  | addScript path =>
    unfold runOp add_script
    dsimp only
    rw [hfix.1]
    dsimp only
    rw [if_pos (by rw [hfix.2]; rfl)]
  | importModule importer name =>
    unfold runOp import_module
    dsimp only
    rw [hfix.1]
    dsimp only
    rw [findNode_identifier hfix.1, if_pos hfix.2]
  | importPackage importer name =>
    unfold runOp import_package
    dsimp only
    rw [hfix.1]
    dsimp only
    rw [if_pos hfix.2]
  | addDistribution dist => exact hfix.elim

/-- Iterating an identical call from the stable state leaves the state
untouched and never aborts. -/
theorem runOpsState_replicate (E : Engine) {op : GrowOp} {n1 : Node}
    {g : Graph} (hfix : FixedAt op n1 g) (t : List Bool) :
    ∀ k, runOpsState E { graph := g, trackers := t } (List.replicate k op)
      = ({ graph := g, trackers := t }, true) := by
  intro k
  induction k with
  | zero => rfl
  | succ k ih =>
    rw [List.replicate_succ]
    unfold runOpsState
    rw [runOp_of_fixedAt E hfix t]
    exact ih

/-- C3: after a first successful add/import call, every later identical call
returns the same node and leaves the state untouched, and a tracking scope
opened strictly after the first call stays unsignalled (flag false) under
any number of repeated identical calls. -/
theorem C3_grow_idempotent (E : Engine) (hE : EngineSane E) (m : MG)
    (op : GrowOp) (hop : op.isAddImport = true) (n1 : Node) (m1 : MG)
    (h1 : runOp E m op = (some n1, m1)) :
    runOp E m1 op = (some n1, m1)
      ∧ (∀ k, runOpsState E (pushTracker m1) (List.replicate k op)
          = (pushTracker m1, true))
      ∧ lastFlag (pushTracker m1) = false := by
  have key := growFixedAt_of_run hE hop h1
  refine ⟨runOp_of_fixedAt E key m1.trackers, ?_, ?_⟩
  · intro k
    exact runOpsState_replicate E key (m1.trackers ++ [false]) k
  · unfold lastFlag pushTracker
    rw [List.getLast?_concat]
    rfl

/-- Empty starting state for the idempotency witness. -/
def c3m0 : MG := { graph := { nodes := [], edges := [] }, trackers := [] }

/-- State after the first `add_module "x"` call. -/
def c3m1 : MG := { graph := { nodes := [freshModule "x"], edges := [] }, trackers := [] }

/-- Witness for C3 at a concrete input. -/
theorem C3_grow_idempotent_witness :
    runOp specEngine c3m0 (GrowOp.addModule "x") = (some (freshModule "x"), c3m1)
      ∧ runOp specEngine c3m1 (GrowOp.addModule "x") = (some (freshModule "x"), c3m1)
      ∧ runOpsState specEngine (pushTracker c3m1)
          (List.replicate 3 (GrowOp.addModule "x")) = (pushTracker c3m1, true)
      ∧ lastFlag (pushTracker c3m1) = false := by
  have h := C3_grow_idempotent specEngine specEngine_sane c3m0
    (GrowOp.addModule "x") (by decide) (freshModule "x") c3m1 (by decide)
  exact ⟨by decide, h.1, h.2.1 3, h.2.2⟩

/-- One mutation call either leaves the tracker list untouched (early
return) or sets every active tracker to true (`__set_updated`). -/
theorem runOp_trackers (E : Engine) (m : MG) (op : GrowOp) :
    ((runOp E m op).2).trackers = m.trackers
      ∨ ((runOp E m op).2).trackers = m.trackers.map (fun _ => true) := by
  cases op with
  | addModule name =>
    unfold runOp add_module
    dsimp only
    split
    · left; rfl
    · right; rfl
  | addScript path =>
    unfold runOp add_script
    dsimp only
    split
    · split
      · left; rfl
      · left; rfl
    · right; rfl
  | importModule importer name =>
    unfold runOp import_module importModuleGrow
    dsimp only
    split
    · split
      · left; rfl
      · right; rfl
    · right; rfl
  | importPackage importer name =>
    unfold runOp import_package importPackageGrow
    dsimp only
    split
    · split
      · left; rfl
      · right; rfl
    · right; rfl
  | addDistribution dist =>
    right; rfl

/-- Along any op sequence, each tracker slot is either untouched or true. -/
theorem runOpsState_trackers_pointwise (E : Engine) :
    ∀ (ops : List GrowOp) (m : MG) (i : Nat),
      ((runOpsState E m ops).1).trackers[i]? = m.trackers[i]?
        ∨ ((runOpsState E m ops).1).trackers[i]? = some true := by
  intro ops
  induction ops with
  | nil =>
    intro m i
    left; rfl
  | cons op rest ih =>
    intro m i
    rcases hr : runOp E m op with ⟨fst, m2⟩
    have hd := runOp_trackers E m op
    rw [hr] at hd
    unfold runOpsState
    rw [hr]
    cases fst with
    | none =>
      dsimp only
      rcases hd with hd | hd
      · left; rw [hd]
      · rw [hd]
        cases hm : m.trackers[i]? with
        | none => left; rw [List.getElem?_map, hm]; rfl
        | some b => right; rw [List.getElem?_map, hm]; rfl
    | some n =>
      dsimp only
      rcases ih m2 i with hih | hih
      · rcases hd with hd | hd
        · left; rw [hih, hd]
        · rw [hih, hd]
          cases hm : m.trackers[i]? with
          | none => left; rw [List.getElem?_map, hm]; rfl
          | some b => right; rw [List.getElem?_map, hm]; rfl
      · right; exact hih

/-- Op sequences never add or remove trackers. -/
theorem runOpsState_trackers_length (E : Engine) :
    ∀ (ops : List GrowOp) (m : MG),
      ((runOpsState E m ops).1).trackers.length = m.trackers.length := by
  intro ops
  induction ops with
  | nil =>
    intro m
    rfl
  | cons op rest ih =>
    intro m
    rcases hr : runOp E m op with ⟨fst, m2⟩
    have hd := runOp_trackers E m op
    rw [hr] at hd
    have hlen : m2.trackers.length = m.trackers.length := by
      rcases hd with hd | hd
      · rw [hd]
      · rw [hd, List.length_map]
    unfold runOpsState
    rw [hr]
    cases fst with
    | none =>
      dsimp only
      exact hlen
    | some n =>
      dsimp only
      rw [ih m2, hlen]

/-- C8: a scope's tracker starts false; a mutation either leaves all
trackers alone or sets every active tracker (not only the innermost) to
true; a tracker once true stays true through any op sequence; and a
tracked scope always restores the tracker list length on exit — also on
abnormal exit — leaving the outer trackers only possibly flipped to true. -/
theorem C8_change_tracking :
    (∀ m : MG, lastFlag (pushTracker m) = false)
      ∧ (∀ (E : Engine) (m : MG) (op : GrowOp),
          ((runOp E m op).2).trackers = m.trackers
            ∨ ((runOp E m op).2).trackers = m.trackers.map (fun _ => true))
      ∧ (∀ (E : Engine) (m : MG) (ops : List GrowOp) (i : Nat),
          m.trackers[i]? = some true →
          ((runOpsState E m ops).1).trackers[i]? = some true)
      ∧ ∀ (E : Engine) (m : MG) (ops : List GrowOp),
          ((trackedRun E m ops).1).trackers.length = m.trackers.length
            ∧ ∀ i : Nat, ((trackedRun E m ops).1).trackers[i]? = m.trackers[i]?
                ∨ ((trackedRun E m ops).1).trackers[i]? = some true := by
  refine ⟨?_, runOp_trackers, ?_, ?_⟩
  · intro m
    unfold lastFlag pushTracker
    rw [List.getLast?_concat]
    rfl
  · intro E m ops i h
    rcases runOpsState_trackers_pointwise E ops m i with hh | hh
    · rw [hh, h]
    · exact hh
  · intro E m ops
    have hlen1 : ((runOpsState E (pushTracker m) ops).1).trackers.length
        = m.trackers.length + 1 := by
      rw [runOpsState_trackers_length]
      unfold pushTracker
      rw [List.length_append]
      rfl
    constructor
    · unfold trackedRun popTracker
      dsimp only
      rw [List.length_dropLast, hlen1]
      omega
    · intro i
      unfold trackedRun popTracker
      dsimp only
      by_cases hi : i < m.trackers.length
      · have hdl : ((runOpsState E (pushTracker m) ops).1).trackers.dropLast[i]?
            = ((runOpsState E (pushTracker m) ops).1).trackers[i]? := by
          rw [List.dropLast_eq_take, List.getElem?_take_of_lt]
          rw [hlen1]
          omega
        rcases runOpsState_trackers_pointwise E ops (pushTracker m) i with hh | hh
        · left
          rw [hdl, hh]
          show (m.trackers ++ [false])[i]? = _
          exact List.getElem?_append_left hi
        · right
          rw [hdl]
          exact hh
      · left
        have h1 : ((runOpsState E (pushTracker m) ops).1).trackers.dropLast[i]?
            = none := by
          refine List.getElem?_eq_none ?_
          rw [List.length_dropLast, hlen1]
          omega
        have h2 : m.trackers[i]? = none := List.getElem?_eq_none (by omega)
        rw [h1, h2]

/-- A state with one already-signalled tracker. -/
def c8t : MG := { graph := { nodes := [], edges := [] }, trackers := [true] }

/-- A state with one fresh tracker. -/
def c8m : MG := { graph := { nodes := [], edges := [] }, trackers := [false] }

/-- Witness for C8 at concrete inputs. -/
theorem C8_change_tracking_witness :
    lastFlag (pushTracker c8m) = false
      ∧ (((runOp specEngine c8m (GrowOp.addModule "x")).2).trackers = c8m.trackers
          ∨ ((runOp specEngine c8m (GrowOp.addModule "x")).2).trackers
              = c8m.trackers.map (fun _ => true))
      ∧ ((runOpsState specEngine c8t [GrowOp.addModule "x"]).1).trackers[0]?
          = some true
      ∧ ((trackedRun specEngine c8m [GrowOp.addModule "x"]).1).trackers.length
          = c8m.trackers.length := by
  have h := C8_change_tracking
  exact ⟨h.1 c8m, h.2.1 specEngine c8m (GrowOp.addModule "x"),
    h.2.2.1 specEngine c8t [GrowOp.addModule "x"] 0 (by decide),
    (h.2.2.2 specEngine c8m [GrowOp.addModule "x"]).1⟩
